import Mathlib

/-!
Shallow embedding of the vpa-operator reconciliation logic.

The Go program keeps one VerticalPodAutoscaler (VPA) per workload
controller (Deployment, StatefulSet, DaemonSet).  Each cycle it lists all
VPAs and all workloads, creates a VPA for every workload that has none
(matching on name and namespace only, function `createVPA`), and deletes
every VPA that matches no workload by name, namespace and target kind,
unless the VPA name begins with "goldilocks" (function `createVPAs`,
delete scan).

Machine details carried over faithfully:
* `v.Spec.TargetRef` is a Go pointer; dereferencing it when nil panics.
  `targetRef` is therefore an `Option`, and every computation that may
  dereference it returns an `Option` whose `none` marks the panic.
* `slices.ContainsFunc` scans left to right and the Go `&&` operator
  short-circuits, so the nil dereference only happens for a list element
  whose name and namespace already matched (`matchWorkload`, `anyM`).
* A failed create call is only logged (`slog.Warn`) and the loop goes on;
  a failed delete call makes `createVPAs` return the error immediately,
  abandoning the rest of the delete scan (`runDeletes`).
-/

/-- A workload controller (Deployment, StatefulSet or DaemonSet); only its
name and namespace are consulted by the program (`vpaTarget` interface). -/
structure Workload where
  name : String
  «namespace» : String
deriving DecidableEq

/-- Target reference of a VPA (`autoscalingv1.CrossVersionObjectReference`). -/
structure CrossVersionObjectReference where
  apiVersion : String
  kind : String
  name : String
deriving DecidableEq

/-- Update policy of a VPA (`autoscalerv1.PodUpdatePolicy`); the Go field is
a string pointer, hence `Option String`. -/
structure PodUpdatePolicy where
  updateMode : Option String
deriving DecidableEq

/-- Spec of a VPA.  Both fields are pointers in Go, hence `Option`. -/
structure VerticalPodAutoscalerSpec where
  targetRef : Option CrossVersionObjectReference
  updatePolicy : Option PodUpdatePolicy
deriving DecidableEq

/-- One existing VPA object (`autoscalerv1.VerticalPodAutoscaler`). -/
structure VerticalPodAutoscaler where
  name : String
  «namespace» : String
  spec : VerticalPodAutoscalerSpec
deriving DecidableEq

abbrev VPA := VerticalPodAutoscaler

/-- The kind recorded in the target reference of a VPA, absent when the
reference itself is absent (spec: `targetKind` of a VPARecord). -/
def VPA.targetKind (v : VPA) : Option String :=
  v.spec.targetRef.map (fun tr => tr.kind)

/-- The three workload lists fetched by one cycle of `createVPAs`. -/
structure Snapshot where
  deployments : List Workload
  statefulSets : List Workload
  daemonSets : List Workload
deriving DecidableEq

/-- Embeds Go `strings.HasPrefix s p` as `strHasPfx p s`. -/
def strHasPfx (p s : String) : Bool :=
  p.data.isPrefixOf s.data

/-- The create-side match of `createVPA`: Go
`slices.ContainsFunc(vpas.Items, func(v) bool { return target.GetName() == v.Name && target.GetNamespace() == v.Namespace })`. -/
def vpaExists (vpas : List VPA) (target : Workload) : Bool :=
  vpas.any (fun v => target.name == v.name && target.«namespace» == v.«namespace»)

/-- The VPA object literal built by `createVPA` (name and namespace from the
workload, target reference from the call-site apiVersion/kind and the
workload name, update mode "Off"). -/
def mkVPA (name ns apiVersion kind : String) : VPA :=
  { name := name
    «namespace» := ns
    spec :=
      { targetRef := some { apiVersion := apiVersion, kind := kind, name := name }
        updatePolicy := some { updateMode := some "Off" } } }

/-- The pure decision part of `createVPA`: `none` when an existing VPA with
the same name and namespace suppresses creation, otherwise the VPA object
that the function submits to the cluster. -/
def createVPAPlan (target : Workload) (apiVersion kind : String) (vpas : List VPA) :
    Option VPA :=
  if vpaExists vpas target then none
  else some (mkVPA target.name target.«namespace» apiVersion kind)

/-- One delete-scan predicate application, e.g. Go
`d.Name == v.Name && d.Namespace == v.Namespace && v.Spec.TargetRef.Kind == kind`.
`&&` short-circuits, so `v.Spec.TargetRef` is dereferenced only after the
name and namespace matched; a nil dereference is the `none` result. -/
def matchWorkload (w : Workload) (v : VPA) (kind : String) : Option Bool :=
  if w.name == v.name && w.«namespace» == v.«namespace» then
    match v.spec.targetRef with
    | none => none
    | some tr => some (tr.kind == kind)
  else
    some false

/-- Go `slices.ContainsFunc` with a predicate that may panic (`none`):
scans left to right, stops at the first `true` or the first panic. -/
def anyM {α : Type} (p : α → Option Bool) : List α → Option Bool
  | [] => some false
  | x :: xs =>
    match p x with
    | none => none
    | some true => some true
    | some false => anyM p xs

/-- The per-VPA decision of the delete scan of `createVPAs`: `some true`
means the VPA is deleted, `some false` that it is kept, `none` that the
scan panics on a nil target reference. -/
def deleteDecision (snap : Snapshot) (v : VPA) : Option Bool :=
  match anyM (fun d => matchWorkload d v "Deployment") snap.deployments with
  | none => none
  | some true => some false
  | some false =>
    match anyM (fun s => matchWorkload s v "StatefulSet") snap.statefulSets with
    | none => none
    | some true => some false
    | some false =>
      match anyM (fun d => matchWorkload d v "DaemonSet") snap.daemonSets with
      | none => none
      | some true => some false
      | some false =>
        if strHasPfx "goldilocks" v.name then some false else some true

/-- The list of VPAs the delete scan decides to delete, in VPA-catalog
order; `none` when the scan panics. -/
def planDeletes (snap : Snapshot) : List VPA → Option (List VPA)
  | [] => some []
  | v :: rest =>
    match deleteDecision snap v with
    | none => none
    | some true => (planDeletes snap rest).map (fun l => v :: l)
    | some false => planDeletes snap rest

/-- Output of one planning pass (spec: ReconciliationPlan). -/
structure ReconciliationPlan where
  toCreate : List VPA
  toDelete : List VPA
deriving DecidableEq

/-- The VPA objects `createVPAs` submits for creation: unmatched
Deployments first, then StatefulSets, then DaemonSets, each in catalog
order, all matched against the one VPA list fetched at cycle start. -/
def toCreateList (snap : Snapshot) (vpas : List VPA) : List VPA :=
  snap.deployments.filterMap (fun d => createVPAPlan d "apps/v1" "Deployment" vpas)
    ++ snap.statefulSets.filterMap (fun s => createVPAPlan s "apps/v1" "StatefulSet" vpas)
    ++ snap.daemonSets.filterMap (fun d => createVPAPlan d "apps/v1" "DaemonSet" vpas)

/-- The reconciliation plan derived from one snapshot pair (spec: `Plan`);
`none` when the delete scan panics on a nil target reference. -/
def plan (snap : Snapshot) (vpas : List VPA) : Option ReconciliationPlan :=
  match planDeletes snap vpas with
  | none => none
  | some dels => some { toCreate := toCreateList snap vpas, toDelete := dels }

/-- How one cycle of `createVPAs` ends: normally, by returning a delete
error, or by a nil-pointer panic in the delete scan. -/
inductive CycleExit where
  | ok
  | errExit
  | panicExit
deriving DecidableEq

/-- One cluster-API call attempted by a cycle. -/
inductive ApiAction where
  | create : VPA → ApiAction
  | delete : VPA → ApiAction
deriving DecidableEq

/-- The delete loop of `createVPAs`, parameterised by which delete calls
succeed (`deleteOk`): a failed delete makes the function return the error
at once, so later VPAs are not even considered. -/
def runDeletes (deleteOk : VPA → Bool) (snap : Snapshot) :
    List VPA → List ApiAction × CycleExit
  | [] => ([], CycleExit.ok)
  | v :: rest =>
    match deleteDecision snap v with
    | none => ([], CycleExit.panicExit)
    | some false => runDeletes deleteOk snap rest
    | some true =>
      if deleteOk v then
        let r := runDeletes deleteOk snap rest
        (ApiAction.delete v :: r.1, r.2)
      else
        ([ApiAction.delete v], CycleExit.errExit)

/-- The actions attempted by one call of Go `createVPA`: none when an
existing VPA matches by name and namespace, otherwise one create call.
A failed create is only logged, so it does not influence control flow. -/
def createVPA (target : Workload) (apiVersion kind : String) (vpas : List VPA) :
    List ApiAction :=
  match createVPAPlan target apiVersion kind vpas with
  | none => []
  | some o => [ApiAction.create o]

/-- All create calls attempted by one cycle, in program order. -/
def createActions (snap : Snapshot) (vpas : List VPA) : List ApiAction :=
  (snap.deployments.map (fun d => createVPA d "apps/v1" "Deployment" vpas)).flatten
    ++ (snap.statefulSets.map (fun s => createVPA s "apps/v1" "StatefulSet" vpas)).flatten
    ++ (snap.daemonSets.map (fun d => createVPA d "apps/v1" "DaemonSet" vpas)).flatten

/-- One full cycle of Go `createVPAs` over already-fetched snapshots: the
attempted cluster-API calls in order, and how the cycle ends.  All create
loops run before the delete loop. -/
def createVPAs (deleteOk : VPA → Bool) (snap : Snapshot) (vpas : List VPA) :
    List ApiAction × CycleExit :=
  let dels := runDeletes deleteOk snap vpas
  (createActions snap vpas ++ dels.1, dels.2)

/-- Modelled from the spec: the effect on the VPA catalog of applying all
of the actions of a plan and re-snapshotting (spec section 8, Convergence):
each delete removes the VPA with that name and namespace, each create adds
the submitted object. -/
def applyPlan (vpas : List VPA) (p : ReconciliationPlan) : List VPA :=
  vpas.filter
      (fun v => !(p.toDelete.any (fun d => d.name == v.name && d.«namespace» == v.«namespace»)))
    ++ p.toCreate

/-- Spec-side predicate: workload `w` of kind `k` is in the snapshot. -/
def inSnapshot (snap : Snapshot) (k : String) (w : Workload) : Prop :=
  (k = "Deployment" ∧ w ∈ snap.deployments)
    ∨ (k = "StatefulSet" ∧ w ∈ snap.statefulSets)
    ∨ (k = "DaemonSet" ∧ w ∈ snap.daemonSets)

/-- Spec-side predicate: some workload matches VPA `v` by the delete-side
key (name, namespace and kind against the recorded target kind). -/
def hasMatchingWorkload (snap : Snapshot) (v : VPA) : Prop :=
  (∃ w ∈ snap.deployments,
      w.name = v.name ∧ w.«namespace» = v.«namespace» ∧ v.targetKind = some "Deployment")
    ∨ (∃ w ∈ snap.statefulSets,
        w.name = v.name ∧ w.«namespace» = v.«namespace» ∧ v.targetKind = some "StatefulSet")
    ∨ (∃ w ∈ snap.daemonSets,
        w.name = v.name ∧ w.«namespace» = v.«namespace» ∧ v.targetKind = some "DaemonSet")

/-- Replace the name recorded in the target reference of a VPA (when present),
leaving everything else unchanged.  Used to state that the planner never
consults the target reference name. -/
def setTargetName (v : VPA) (n : String) : VPA :=
  { v with
    spec :=
      { v.spec with
        targetRef := v.spec.targetRef.map (fun tr => { tr with name := n }) } }

example :
    createVPAPlan ⟨"web", "default"⟩ "apps/v1" "Deployment" [] =
      some (mkVPA "web" "default" "apps/v1" "Deployment") := by decide

example :
    deleteDecision ⟨[⟨"api", "ns"⟩], [], []⟩
      ⟨"api", "ns", ⟨some ⟨"apps/v1", "StatefulSet", "api"⟩, none⟩⟩ = some true := by
  decide

example :
    deleteDecision ⟨[⟨"api", "ns"⟩], [], []⟩ ⟨"api", "ns", ⟨none, none⟩⟩ = none := by
  decide

example :
    deleteDecision ⟨[], [], []⟩ ⟨"goldilocks-api", "ns", ⟨none, none⟩⟩ = some false := by
  decide

/-! Basic characterisations of the matching primitives. -/

theorem vpaExists_iff {vpas : List VPA} {w : Workload} :
    vpaExists vpas w = true ↔
      ∃ v ∈ vpas, w.name = v.name ∧ w.«namespace» = v.«namespace» := by
  simp [vpaExists, List.any_eq_true]

theorem vpaExists_append {l₁ l₂ : List VPA} {w : Workload} :
    vpaExists (l₁ ++ l₂) w = (vpaExists l₁ w || vpaExists l₂ w) := by
  simp [vpaExists, List.any_append]

theorem vpaExists_of_mkVPA_mem {l : List VPA} {w : Workload} {av k : String}
    (h : mkVPA w.name w.«namespace» av k ∈ l) : vpaExists l w = true := by
  refine vpaExists_iff.mpr ⟨mkVPA w.name w.«namespace» av k, h, rfl, rfl⟩

theorem createVPAPlan_eq_some {t : Workload} {av k : String} {vpas : List VPA} {o : VPA} :
    createVPAPlan t av k vpas = some o ↔
      vpaExists vpas t = false ∧ o = mkVPA t.name t.«namespace» av k := by
  unfold createVPAPlan
  cases h : vpaExists vpas t <;> simp [h, eq_comm]

theorem createVPAPlan_eq_none {t : Workload} {av k : String} {vpas : List VPA} :
    createVPAPlan t av k vpas = none ↔ vpaExists vpas t = true := by
  unfold createVPAPlan
  cases h : vpaExists vpas t <;> simp [h]

theorem matchWorkload_some_true {w : Workload} {v : VPA} {k : String} :
    matchWorkload w v k = some true ↔
      w.name = v.name ∧ w.«namespace» = v.«namespace» ∧ v.targetKind = some k := by
  unfold matchWorkload VPA.targetKind
  by_cases h : (w.name == v.name && w.«namespace» == v.«namespace») = true
  · rw [if_pos h]
    simp only [Bool.and_eq_true, beq_iff_eq] at h
    obtain ⟨h1, h2⟩ := h
    cases ht : v.spec.targetRef with
    | none => simp [ht, h1, h2]
    | some tr => simp [ht, h1, h2]
  · rw [if_neg h]
    simp only [Bool.and_eq_true, beq_iff_eq] at h
    constructor
    · intro hc; exact absurd hc (by simp)
    · rintro ⟨h1, h2, -⟩; exact absurd ⟨h1, h2⟩ h

theorem matchWorkload_of_targetRef {w : Workload} {v : VPA} {k : String}
    {tr : CrossVersionObjectReference} (h : v.spec.targetRef = some tr) :
    matchWorkload w v k =
      some ((w.name == v.name && w.«namespace» == v.«namespace») && (tr.kind == k)) := by
  unfold matchWorkload
  by_cases hn : (w.name == v.name && w.«namespace» == v.«namespace») = true
  · rw [if_pos hn, h, hn]; simp
  · rw [if_neg hn]
    have : (w.name == v.name && w.«namespace» == v.«namespace») = false :=
      Bool.eq_false_iff.mpr hn
    rw [this]; simp

theorem anyM_eq_some {α : Type} {p : α → Option Bool} :
    ∀ {l : List α} {b : Bool}, anyM p l = some b →
      (b = true ↔ ∃ x ∈ l, p x = some true) := by
  intro l
  induction l with
  | nil =>
    intro b hb
    simp only [anyM, Option.some.injEq] at hb
    subst hb
    simp
  | cons x xs ih =>
    intro b hb
    simp only [anyM] at hb
    cases hx : p x with
    | none => rw [hx] at hb; exact absurd hb (by simp)
    | some bx =>
      rw [hx] at hb
      cases bx with
      | true =>
        simp only [Option.some.injEq] at hb
        subst hb
        simp only [List.mem_cons, true_iff]
        exact ⟨x, Or.inl rfl, hx⟩
      | false =>
        have := ih hb
        rw [this]
        constructor
        · rintro ⟨y, hy, hpy⟩; exact ⟨y, List.mem_cons_of_mem x hy, hpy⟩
        · rintro ⟨y, hy, hpy⟩
          rcases List.mem_cons.mp hy with rfl | hy'
          · rw [hx] at hpy; exact absurd hpy (by simp)
          · exact ⟨y, hy', hpy⟩

theorem anyM_total {α : Type} {p : α → Option Bool} :
    ∀ {l : List α}, (∀ x ∈ l, ∃ b, p x = some b) → ∃ b, anyM p l = some b := by
  intro l
  induction l with
  | nil => intro _; exact ⟨false, rfl⟩
  | cons x xs ih =>
    intro h
    obtain ⟨bx, hbx⟩ := h x (List.mem_cons_self x xs)
    obtain ⟨br, hbr⟩ := ih (fun y hy => h y (List.mem_cons_of_mem x hy))
    cases bx with
    | true => exact ⟨true, by simp [anyM, hbx]⟩
    | false => exact ⟨br, by simp [anyM, hbx, hbr]⟩

/-! Characterisation of the delete-scan decision. -/

theorem deleteDecision_spec {snap : Snapshot} {v : VPA} {b : Bool}
    (h : deleteDecision snap v = some b) :
    b = true ↔ ¬ hasMatchingWorkload snap v ∧ strHasPfx "goldilocks" v.name = false := by
  have hmem : ∀ (l : List Workload) (k : String) (bb : Bool),
      anyM (fun d => matchWorkload d v k) l = some bb →
      (bb = true ↔
        ∃ w ∈ l, w.name = v.name ∧ w.«namespace» = v.«namespace» ∧ v.targetKind = some k) := by
    intro l k bb hbb
    rw [anyM_eq_some hbb]
    exact exists_congr fun w => and_congr_right fun _ => matchWorkload_some_true
  unfold deleteDecision at h
  cases h1 : anyM (fun d => matchWorkload d v "Deployment") snap.deployments with
  | none => rw [h1] at h; exact absurd h (by simp)
  | some b1 =>
    rw [h1] at h
    cases b1 with
    | true =>
      simp only [Option.some.injEq] at h
      subst h
      have hm : hasMatchingWorkload snap v := Or.inl ((hmem _ _ _ h1).mp rfl)
      simp [hm]
    | false =>
      cases h2 : anyM (fun s => matchWorkload s v "StatefulSet") snap.statefulSets with
      | none => rw [h2] at h; exact absurd h (by simp)
      | some b2 =>
        rw [h2] at h
        cases b2 with
        | true =>
          simp only [Option.some.injEq] at h
          subst h
          have hm : hasMatchingWorkload snap v := Or.inr (Or.inl ((hmem _ _ _ h2).mp rfl))
          simp [hm]
        | false =>
          cases h3 : anyM (fun d => matchWorkload d v "DaemonSet") snap.daemonSets with
          | none => rw [h3] at h; exact absurd h (by simp)
          | some b3 =>
            rw [h3] at h
            cases b3 with
            | true =>
              simp only [Option.some.injEq] at h
              subst h
              have hm : hasMatchingWorkload snap v :=
                Or.inr (Or.inr ((hmem _ _ _ h3).mp rfl))
              simp [hm]
            | false =>
              have hnm : ¬ hasMatchingWorkload snap v := by
                unfold hasMatchingWorkload
                rintro (hx | hx | hx)
                · exact absurd ((hmem _ _ _ h1).mpr hx) (by simp)
                · exact absurd ((hmem _ _ _ h2).mpr hx) (by simp)
                · exact absurd ((hmem _ _ _ h3).mpr hx) (by simp)
              by_cases hp : strHasPfx "goldilocks" v.name = true
              · rw [if_pos hp] at h
                simp only [Option.some.injEq] at h
                subst h
                simp [hp]
              · rw [if_neg hp] at h
                simp only [Option.some.injEq] at h
                subst h
                simp [hnm, Bool.eq_false_iff.mpr hp]

theorem deleteDecision_total {snap : Snapshot} {v : VPA}
    {tr : CrossVersionObjectReference} (h : v.spec.targetRef = some tr) :
    ∃ b, deleteDecision snap v = some b := by
  have hmt : ∀ (l : List Workload) (k : String),
      ∃ b, anyM (fun d => matchWorkload d v k) l = some b :=
    fun l k => anyM_total (fun w _ => ⟨_, matchWorkload_of_targetRef h⟩)
  unfold deleteDecision
  obtain ⟨b1, h1⟩ := hmt snap.deployments "Deployment"
  rw [h1]
  cases b1 with
  | true => exact ⟨false, rfl⟩
  | false =>
    obtain ⟨b2, h2⟩ := hmt snap.statefulSets "StatefulSet"
    rw [h2]
    cases b2 with
    | true => exact ⟨false, rfl⟩
    | false =>
      obtain ⟨b3, h3⟩ := hmt snap.daemonSets "DaemonSet"
      rw [h3]
      cases b3 with
      | true => exact ⟨false, rfl⟩
      | false =>
        by_cases hp : strHasPfx "goldilocks" v.name = true
        · rw [if_pos hp]; exact ⟨false, rfl⟩
        · rw [if_neg hp]; exact ⟨true, rfl⟩

/-! Characterisation of the delete plan. -/

theorem planDeletes_eq_filter {snap : Snapshot} :
    ∀ {l out : List VPA}, planDeletes snap l = some out →
      out = l.filter (fun v => decide (deleteDecision snap v = some true)) := by
  intro l
  induction l with
  | nil =>
    intro out h
    simp only [planDeletes, Option.some.injEq] at h
    subst h
    rfl
  | cons v rest ih =>
    intro out h
    simp only [planDeletes] at h
    cases hd : deleteDecision snap v with
    | none => rw [hd] at h; exact absurd h (by simp)
    | some bv =>
      rw [hd] at h
      cases bv with
      | true =>
        rcases Option.map_eq_some'.mp h with ⟨out', hout', rfl⟩
        rw [List.filter_cons]
        simp only [hd, decide_eq_true_eq, if_pos]
        rw [ih hout']
      | false =>
        rw [List.filter_cons]
        simp only [hd, decide_eq_true_eq]
        rw [if_neg (by simp)]
        exact ih h

theorem planDeletes_defined {snap : Snapshot} :
    ∀ {l out : List VPA}, planDeletes snap l = some out →
      ∀ v ∈ l, ∃ b, deleteDecision snap v = some b := by
  intro l
  induction l with
  | nil => intro out _ v hv; exact absurd hv (List.not_mem_nil v)
  | cons x rest ih =>
    intro out h v hv
    simp only [planDeletes] at h
    cases hd : deleteDecision snap x with
    | none => rw [hd] at h; exact absurd h (by simp)
    | some bx =>
      rw [hd] at h
      rcases List.mem_cons.mp hv with rfl | hv'
      · exact ⟨bx, hd⟩
      · cases bx with
        | true =>
          rcases Option.map_eq_some'.mp h with ⟨out', hout', -⟩
          exact ih hout' v hv'
        | false => exact ih h v hv'

theorem planDeletes_allFalse {snap : Snapshot} :
    ∀ {l : List VPA}, (∀ v ∈ l, deleteDecision snap v = some false) →
      planDeletes snap l = some [] := by
  intro l
  induction l with
  | nil => intro _; rfl
  | cons x rest ih =>
    intro h
    have hx := h x (List.mem_cons_self x rest)
    unfold planDeletes
    rw [hx]
    exact ih (fun v hv => h v (List.mem_cons_of_mem x hv))

theorem mem_planDeletes {snap : Snapshot} {l out : List VPA} {v : VPA}
    (h : planDeletes snap l = some out) :
    v ∈ out ↔ v ∈ l ∧ deleteDecision snap v = some true := by
  rw [planDeletes_eq_filter h, List.mem_filter]
  simp

/-! Characterisation of the create plan. -/

theorem mem_toCreateList {snap : Snapshot} {vpas : List VPA} {o : VPA} :
    o ∈ toCreateList snap vpas ↔
      ∃ k w, inSnapshot snap k w ∧ vpaExists vpas w = false ∧
        o = mkVPA w.name w.«namespace» "apps/v1" k := by
  simp only [toCreateList, List.mem_append, List.mem_filterMap, createVPAPlan_eq_some,
    inSnapshot]
  constructor
  · rintro ((⟨w, hw, hex, rfl⟩ | ⟨w, hw, hex, rfl⟩) | ⟨w, hw, hex, rfl⟩)
    · exact ⟨"Deployment", w, Or.inl ⟨rfl, hw⟩, hex, rfl⟩
    · exact ⟨"StatefulSet", w, Or.inr (Or.inl ⟨rfl, hw⟩), hex, rfl⟩
    · exact ⟨"DaemonSet", w, Or.inr (Or.inr ⟨rfl, hw⟩), hex, rfl⟩
  · rintro ⟨k, w, (⟨rfl, hw⟩ | ⟨rfl, hw⟩ | ⟨rfl, hw⟩), hex, rfl⟩
    · exact Or.inl (Or.inl ⟨w, hw, hex, rfl⟩)
    · exact Or.inl (Or.inr ⟨w, hw, hex, rfl⟩)
    · exact Or.inr ⟨w, hw, hex, rfl⟩

theorem deleteDecision_mkVPA {snap : Snapshot} {k : String} {w : Workload}
    (h : inSnapshot snap k w) :
    deleteDecision snap (mkVPA w.name w.«namespace» "apps/v1" k) = some false := by
  obtain ⟨b, hb⟩ :=
    @deleteDecision_total snap (mkVPA w.name w.«namespace» "apps/v1" k)
      ⟨"apps/v1", k, w.name⟩ rfl
  cases b with
  | false => exact hb
  | true =>
    exfalso
    rcases (deleteDecision_spec hb).mp rfl with ⟨hnm, -⟩
    apply hnm
    unfold hasMatchingWorkload
    rcases h with ⟨rfl, hw⟩ | ⟨rfl, hw⟩ | ⟨rfl, hw⟩
    · exact Or.inl ⟨w, hw, rfl, rfl, rfl⟩
    · exact Or.inr (Or.inl ⟨w, hw, rfl, rfl, rfl⟩)
    · exact Or.inr (Or.inr ⟨w, hw, rfl, rfl, rfl⟩)

/-! Structure of the full plan and the executed cycle. -/

theorem plan_some_elim {snap : Snapshot} {vpas : List VPA} {p : ReconciliationPlan}
    (h : plan snap vpas = some p) :
    planDeletes snap vpas = some p.toDelete ∧ p.toCreate = toCreateList snap vpas := by
  unfold plan at h
  cases hd : planDeletes snap vpas with
  | none => rw [hd] at h; exact absurd h (by simp)
  | some dels =>
    rw [hd] at h
    simp only [Option.some.injEq] at h
    subst h
    exact ⟨rfl, rfl⟩

theorem plan_some_intro {snap : Snapshot} {vpas dels : List VPA}
    (h : planDeletes snap vpas = some dels) :
    plan snap vpas = some ⟨toCreateList snap vpas, dels⟩ := by
  unfold plan
  rw [h]

theorem createVPA_none {t : Workload} {av k : String} {vpas : List VPA}
    (hd : createVPAPlan t av k vpas = none) : createVPA t av k vpas = [] := by
  unfold createVPA
  rw [hd]

theorem createVPA_some {t : Workload} {av k : String} {vpas : List VPA} {o : VPA}
    (hd : createVPAPlan t av k vpas = some o) :
    createVPA t av k vpas = [ApiAction.create o] := by
  unfold createVPA
  rw [hd]

theorem createVPA_flatten {av k : String} {vpas : List VPA} :
    ∀ ws : List Workload,
      (ws.map (fun d => createVPA d av k vpas)).flatten =
        (ws.filterMap (fun d => createVPAPlan d av k vpas)).map ApiAction.create := by
  intro ws
  induction ws with
  | nil => rfl
  | cons d rest ih =>
    rw [List.map_cons, List.flatten_cons]
    cases hd : createVPAPlan d av k vpas with
    | none =>
      rw [createVPA_none hd]
      simp only [List.filterMap_cons, hd, List.nil_append]
      exact ih
    | some o =>
      rw [createVPA_some hd]
      simp only [List.filterMap_cons, hd, List.map_cons, List.cons_append,
        List.nil_append]
      rw [ih]

theorem createActions_eq {snap : Snapshot} {vpas : List VPA} :
    createActions snap vpas = (toCreateList snap vpas).map ApiAction.create := by
  unfold createActions toCreateList
  rw [createVPA_flatten, createVPA_flatten, createVPA_flatten, List.map_append,
    List.map_append]

theorem createActions_no_delete {snap : Snapshot} {vpas : List VPA} {u : VPA} :
    ApiAction.delete u ∉ createActions snap vpas := by
  rw [createActions_eq]
  intro h
  rcases List.mem_map.mp h with ⟨o, -, ho⟩
  exact ApiAction.noConfusion ho

theorem runDeletes_ok {deleteOk : VPA → Bool} {snap : Snapshot} :
    ∀ {l dels : List VPA}, planDeletes snap l = some dels →
      (∀ v ∈ dels, deleteOk v = true) →
      runDeletes deleteOk snap l = (dels.map ApiAction.delete, CycleExit.ok) := by
  intro l
  induction l with
  | nil =>
    intro dels h _
    simp only [planDeletes, Option.some.injEq] at h
    subst h
    rfl
  | cons x rest ih =>
    intro dels h hok
    simp only [planDeletes] at h
    cases hd : deleteDecision snap x with
    | none => rw [hd] at h; exact absurd h (by simp)
    | some bx =>
      rw [hd] at h
      cases bx with
      | false =>
        simp only [runDeletes, hd]
        exact ih h hok
      | true =>
        rcases Option.map_eq_some'.mp h with ⟨dels', hdels', hcons⟩
        subst hcons
        have hx : deleteOk x = true := hok x (List.mem_cons_self _ _)
        simp only [runDeletes, hd, hx, if_pos]
        rw [ih hdels' (fun v hv => hok v (List.mem_cons_of_mem x hv))]
        rfl

theorem runDeletes_stop {deleteOk : VPA → Bool} {snap : Snapshot} :
    ∀ {l dels pre post : List VPA} {v : VPA}, planDeletes snap l = some dels →
      dels = pre ++ v :: post → (∀ u ∈ pre, deleteOk u = true) → deleteOk v = false →
      runDeletes deleteOk snap l =
        (pre.map ApiAction.delete ++ [ApiAction.delete v], CycleExit.errExit) := by
  intro l
  induction l with
  | nil =>
    intro dels pre post v h he _ _
    simp only [planDeletes, Option.some.injEq] at h
    subst h
    exact absurd he.symm (by simp)
  | cons x rest ih =>
    intro dels pre post v h he hpre hv
    simp only [planDeletes] at h
    cases hd : deleteDecision snap x with
    | none => rw [hd] at h; exact absurd h (by simp)
    | some bx =>
      rw [hd] at h
      cases bx with
      | false =>
        simp only [runDeletes, hd]
        exact ih h he hpre hv
      | true =>
        rcases Option.map_eq_some'.mp h with ⟨dels', hdels', hcons⟩
        subst hcons
        cases pre with
        | nil =>
          simp only [List.nil_append] at he
          obtain ⟨rfl, rfl⟩ := List.cons_eq_cons.mp he
          simp [runDeletes, hd, hv]
        | cons q pre' =>
          rw [List.cons_append] at he
          obtain ⟨rfl, hd'⟩ := List.cons_eq_cons.mp he
          have hq : deleteOk x = true := hpre x (List.mem_cons_self _ _)
          simp only [runDeletes, hd, hq, if_pos]
          rw [ih hdels' hd' (fun u hu => hpre u (List.mem_cons_of_mem _ hu)) hv]
          simp

theorem runDeletes_delete_mem {deleteOk : VPA → Bool} {snap : Snapshot} :
    ∀ {l : List VPA} {u : VPA}, ApiAction.delete u ∈ (runDeletes deleteOk snap l).1 →
      deleteDecision snap u = some true := by
  intro l
  induction l with
  | nil => intro u hu; exact absurd hu (by simp [runDeletes])
  | cons x rest ih =>
    intro u hu
    cases hd : deleteDecision snap x with
    | none => simp only [runDeletes, hd] at hu; exact absurd hu (by simp)
    | some bx =>
      cases bx with
      | false =>
        simp only [runDeletes, hd] at hu
        exact ih hu
      | true =>
        simp only [runDeletes, hd] at hu
        cases hok : deleteOk x with
        | true =>
          rw [if_pos hok] at hu
          simp only [List.mem_cons] at hu
          rcases hu with he | hu'
          · obtain rfl := (ApiAction.delete.injEq u x).mp he
            exact hd
          · exact ih hu'
        | false =>
          rw [if_neg (by simp [hok])] at hu
          simp only [List.mem_singleton] at hu
          obtain rfl := (ApiAction.delete.injEq u x).mp hu
          exact hd

theorem survivor_decision {snap : Snapshot} {vpas dels : List VPA} {v : VPA}
    (hpd : planDeletes snap vpas = some dels) (hv : v ∈ vpas)
    (hkeep : dels.any (fun d => d.name == v.name && d.«namespace» == v.«namespace») = false) :
    deleteDecision snap v = some false := by
  obtain ⟨b, hb⟩ := planDeletes_defined hpd v hv
  cases b with
  | false => exact hb
  | true =>
    exfalso
    have hmem : v ∈ dels := (mem_planDeletes hpd).mpr ⟨hv, hb⟩
    have hany : dels.any (fun d => d.name == v.name && d.«namespace» == v.«namespace») = true :=
      List.any_eq_true.mpr ⟨v, hmem, by simp⟩
    rw [hkeep] at hany
    exact Bool.noConfusion hany

/-! Convergence machinery: decisions after applying a plan. -/

theorem applyPlan_decision_false {snap : Snapshot} {vpas : List VPA}
    {p : ReconciliationPlan} (hp : plan snap vpas = some p) :
    ∀ v ∈ applyPlan vpas p, deleteDecision snap v = some false := by
  intro v hv
  obtain ⟨hpd, hpc⟩ := plan_some_elim hp
  unfold applyPlan at hv
  rcases List.mem_append.mp hv with hv1 | hv2
  · have hmem := List.mem_filter.mp hv1
    have hkeep :
        p.toDelete.any (fun d => d.name == v.name && d.«namespace» == v.«namespace») = false := by
      have h2 := hmem.2
      simpa using h2
    exact survivor_decision hpd hmem.1 hkeep
  · rw [hpc] at hv2
    rcases mem_toCreateList.mp hv2 with ⟨k, w, hin, -, rfl⟩
    exact deleteDecision_mkVPA hin

theorem applyPlan_emptyDelete {vpas : List VPA} {p : ReconciliationPlan}
    (h : p.toDelete = []) : applyPlan vpas p = vpas ++ p.toCreate := by
  unfold applyPlan
  rw [h]
  simp

theorem toCreateList_eq_nil {snap : Snapshot} {vpas : List VPA}
    (h : ∀ k w, inSnapshot snap k w → vpaExists vpas w = true) :
    toCreateList snap vpas = [] := by
  have h1 : snap.deployments.filterMap
      (fun d => createVPAPlan d "apps/v1" "Deployment" vpas) = [] :=
    List.filterMap_eq_nil_iff.mpr
      (fun d hd => createVPAPlan_eq_none.mpr (h "Deployment" d (Or.inl ⟨rfl, hd⟩)))
  have h2 : snap.statefulSets.filterMap
      (fun s => createVPAPlan s "apps/v1" "StatefulSet" vpas) = [] :=
    List.filterMap_eq_nil_iff.mpr
      (fun s hs => createVPAPlan_eq_none.mpr (h "StatefulSet" s (Or.inr (Or.inl ⟨rfl, hs⟩))))
  have h3 : snap.daemonSets.filterMap
      (fun d => createVPAPlan d "apps/v1" "DaemonSet" vpas) = [] :=
    List.filterMap_eq_nil_iff.mpr
      (fun d hd => createVPAPlan_eq_none.mpr (h "DaemonSet" d (Or.inr (Or.inr ⟨rfl, hd⟩))))
  unfold toCreateList
  rw [h1, h2, h3]
  rfl

theorem allMatched_after_apply {snap : Snapshot} {vpas : List VPA}
    {p : ReconciliationPlan} :
    ∀ k w, inSnapshot snap k w →
      vpaExists (applyPlan vpas p ++ toCreateList snap (applyPlan vpas p)) w = true := by
  intro k w hin
  cases hex : vpaExists (applyPlan vpas p) w with
  | true => rw [vpaExists_append, hex]; rfl
  | false =>
    have hmem : mkVPA w.name w.«namespace» "apps/v1" k ∈ toCreateList snap (applyPlan vpas p) :=
      mem_toCreateList.mpr ⟨k, w, hin, hex, rfl⟩
    rw [vpaExists_append, vpaExists_of_mkVPA_mem hmem]
    simp

/-! Counting created VPAs (uniqueness of the create action per workload). -/

theorem mkVPA_inj_iff {n₁ ns₁ n₂ ns₂ av k : String} :
    mkVPA n₁ ns₁ av k = mkVPA n₂ ns₂ av k ↔ n₁ = n₂ ∧ ns₁ = ns₂ := by
  unfold mkVPA
  constructor
  · intro h
    injection h with h1 h2 h3
    exact ⟨h1, h2⟩
  · rintro ⟨rfl, rfl⟩
    rfl

theorem mkVPA_kind_ne {n₁ ns₁ n₂ ns₂ av k₁ k₂ : String} (h : k₁ ≠ k₂) :
    mkVPA n₁ ns₁ av k₁ ≠ mkVPA n₂ ns₂ av k₂ := by
  intro he
  apply h
  have h2 := congrArg (fun v : VPA => v.spec.targetRef) he
  simp only [mkVPA, Option.some.injEq, CrossVersionObjectReference.mk.injEq] at h2
  exact h2.2.1

theorem workload_eq_of_fields {w₁ w₂ : Workload} (h1 : w₁.name = w₂.name)
    (h2 : w₁.«namespace» = w₂.«namespace») : w₁ = w₂ := by
  cases w₁
  cases w₂
  simp_all

theorem mkVPA_not_mem_filterMap {av k : String} {vpas : List VPA} {w : Workload}
    {ws : List Workload} (hw : w ∉ ws) :
    mkVPA w.name w.«namespace» av k ∉
      ws.filterMap (fun d => createVPAPlan d av k vpas) := by
  intro h
  rcases List.mem_filterMap.mp h with ⟨d, hd, hfd⟩
  rcases createVPAPlan_eq_some.mp hfd with ⟨-, heq⟩
  obtain ⟨h1, h2⟩ := mkVPA_inj_iff.mp heq
  exact hw (workload_eq_of_fields h1 h2 ▸ hd)

theorem count_createPlan_self {av k : String} {vpas : List VPA} {w : Workload} :
    ∀ {ws : List Workload}, ws.Nodup → w ∈ ws →
      (ws.filterMap (fun d => createVPAPlan d av k vpas)).count
          (mkVPA w.name w.«namespace» av k) =
        if vpaExists vpas w = true then 0 else 1 := by
  intro ws
  induction ws with
  | nil => intro _ hw; exact absurd hw (List.not_mem_nil w)
  | cons d ds ih =>
    intro hnd hw
    obtain ⟨hd_notin, hds⟩ := List.nodup_cons.mp hnd
    rcases List.mem_cons.mp hw with rfl | hw'
    · cases hex : vpaExists vpas w with
      | true =>
        have hnone : createVPAPlan w av k vpas = none := createVPAPlan_eq_none.mpr hex
        rw [List.filterMap_cons, hnone, if_pos rfl]
        exact List.count_eq_zero.mpr (mkVPA_not_mem_filterMap hd_notin)
      | false =>
        have hsome : createVPAPlan w av k vpas =
            some (mkVPA w.name w.«namespace» av k) :=
          createVPAPlan_eq_some.mpr ⟨hex, rfl⟩
        rw [List.filterMap_cons, hsome]
        rw [if_neg (by simp [hex])]
        rw [List.count_cons]
        rw [List.count_eq_zero.mpr (mkVPA_not_mem_filterMap hd_notin)]
        simp
    · have hne : d ≠ w := fun he => hd_notin (he ▸ hw')
      have step : (List.filterMap (fun x => createVPAPlan x av k vpas) (d :: ds)).count
            (mkVPA w.name w.«namespace» av k) =
          (List.filterMap (fun x => createVPAPlan x av k vpas) ds).count
            (mkVPA w.name w.«namespace» av k) := by
        rw [List.filterMap_cons]
        cases hfd : createVPAPlan d av k vpas with
        | none => rfl
        | some o =>
          rcases createVPAPlan_eq_some.mp hfd with ⟨-, rfl⟩
          rw [List.count_cons]
          have : (mkVPA d.name d.«namespace» av k ==
              mkVPA w.name w.«namespace» av k) = false := by
            rw [beq_eq_false_iff_ne]
            intro he
            obtain ⟨h1, h2⟩ := mkVPA_inj_iff.mp he
            exact hne (workload_eq_of_fields h1 h2)
          rw [this]
          simp
      rw [step]
      exact ih hds hw'

theorem count_createPlan_ne {av k k' : String} {vpas : List VPA} {w : Workload}
    {ws : List Workload} (h : k ≠ k') :
    (ws.filterMap (fun d => createVPAPlan d av k' vpas)).count
      (mkVPA w.name w.«namespace» av k) = 0 := by
  rw [List.count_eq_zero]
  intro hmem
  rcases List.mem_filterMap.mp hmem with ⟨d, -, hfd⟩
  rcases createVPAPlan_eq_some.mp hfd with ⟨-, heq⟩
  exact mkVPA_kind_ne h heq

/-! Invariance under renaming the target reference name. -/

theorem setTargetName_name {v : VPA} {n : String} : (setTargetName v n).name = v.name :=
  rfl

theorem matchWorkload_setTargetName {w : Workload} {v : VPA} {k n : String} :
    matchWorkload w (setTargetName v n) k = matchWorkload w v k := by
  unfold matchWorkload setTargetName
  cases ht : v.spec.targetRef with
  | none => simp [ht]
  | some tr => simp [ht]

theorem deleteDecision_setTargetName {snap : Snapshot} {v : VPA} {n : String} :
    deleteDecision snap (setTargetName v n) = deleteDecision snap v := by
  unfold deleteDecision
  have e1 : (fun d => matchWorkload d (setTargetName v n) "Deployment") =
      (fun d => matchWorkload d v "Deployment") :=
    funext (fun d => matchWorkload_setTargetName)
  have e2 : (fun s => matchWorkload s (setTargetName v n) "StatefulSet") =
      (fun s => matchWorkload s v "StatefulSet") :=
    funext (fun s => matchWorkload_setTargetName)
  have e3 : (fun d => matchWorkload d (setTargetName v n) "DaemonSet") =
      (fun d => matchWorkload d v "DaemonSet") :=
    funext (fun d => matchWorkload_setTargetName)
  rw [e1, e2, e3]
  rfl

theorem vpaExists_map_setTargetName {vpas : List VPA} {f : VPA → String} {w : Workload} :
    vpaExists (vpas.map (fun v => setTargetName v (f v))) w = vpaExists vpas w := by
  unfold vpaExists
  rw [List.any_map]
  rfl

theorem createVPAPlan_map_setTargetName {t : Workload} {av k : String}
    {vpas : List VPA} {f : VPA → String} :
    createVPAPlan t av k (vpas.map (fun v => setTargetName v (f v))) =
      createVPAPlan t av k vpas := by
  unfold createVPAPlan
  rw [vpaExists_map_setTargetName]

theorem toCreateList_map_setTargetName {snap : Snapshot} {vpas : List VPA}
    {f : VPA → String} :
    toCreateList snap (vpas.map (fun v => setTargetName v (f v))) =
      toCreateList snap vpas := by
  unfold toCreateList
  have e1 : (fun d => createVPAPlan d "apps/v1" "Deployment"
        (vpas.map (fun v => setTargetName v (f v)))) =
      (fun d => createVPAPlan d "apps/v1" "Deployment" vpas) :=
    funext (fun d => createVPAPlan_map_setTargetName)
  have e2 : (fun s => createVPAPlan s "apps/v1" "StatefulSet"
        (vpas.map (fun v => setTargetName v (f v)))) =
      (fun s => createVPAPlan s "apps/v1" "StatefulSet" vpas) :=
    funext (fun s => createVPAPlan_map_setTargetName)
  have e3 : (fun d => createVPAPlan d "apps/v1" "DaemonSet"
        (vpas.map (fun v => setTargetName v (f v)))) =
      (fun d => createVPAPlan d "apps/v1" "DaemonSet" vpas) :=
    funext (fun d => createVPAPlan_map_setTargetName)
  rw [e1, e2, e3]

theorem planDeletes_map_setTargetName {snap : Snapshot} {f : VPA → String} :
    ∀ {l : List VPA},
      planDeletes snap (l.map (fun v => setTargetName v (f v))) =
        (planDeletes snap l).map (List.map (fun v => setTargetName v (f v))) := by
  intro l
  induction l with
  | nil => rfl
  | cons v rest ih =>
    rw [List.map_cons]
    have hdec := @deleteDecision_setTargetName snap v (f v)
    cases hd : deleteDecision snap v with
    | none =>
      simp only [planDeletes, hdec, hd]
      rfl
    | some b =>
      cases b with
      | true =>
        simp only [planDeletes, hdec, hd, ih]
        cases hr : planDeletes snap rest with
        | none => rfl
        | some dels => rfl
      | false =>
        simp only [planDeletes, hdec, hd]
        exact ih

/-! Create plan as an ordered filter-and-map. -/

theorem filterMap_createPlan_eq {av k : String} {vpas : List VPA} :
    ∀ ws : List Workload,
      ws.filterMap (fun d => createVPAPlan d av k vpas) =
        (ws.filter (fun d => !vpaExists vpas d)).map
          (fun d => mkVPA d.name d.«namespace» av k) := by
  intro ws
  induction ws with
  | nil => rfl
  | cons d rest ih =>
    rw [List.filterMap_cons, List.filter_cons]
    cases hex : vpaExists vpas d with
    | true =>
      rw [createVPAPlan_eq_none.mpr hex]
      simp only [hex, Bool.not_true, Bool.false_eq_true, if_neg]
      exact ih
    | false =>
      rw [createVPAPlan_eq_some.mpr ⟨hex, rfl⟩]
      simp only [hex, Bool.not_false, if_pos, List.map_cons]
      rw [ih]

/-! Claim theorems. -/

/-- C1: a VPA of the snapshot appears in the delete plan exactly when no
workload matches it by name, namespace and recorded target kind
(Deployments, then StatefulSets, then DaemonSets) and its name does not
start with "goldilocks"; in particular a VPA whose name and namespace
match a workload of a different kind is deleted. -/
theorem c1_delete_iff {snap : Snapshot} {vpas : List VPA} {p : ReconciliationPlan}
    {v : VPA} (hp : plan snap vpas = some p) (hv : v ∈ vpas) :
    v ∈ p.toDelete ↔
      ¬ hasMatchingWorkload snap v ∧ strHasPfx "goldilocks" v.name = false := by
  obtain ⟨hpd, -⟩ := plan_some_elim hp
  rw [mem_planDeletes hpd]
  constructor
  · rintro ⟨-, hdec⟩
    exact (deleteDecision_spec hdec).mp rfl
  · intro hc
    obtain ⟨b, hb⟩ := planDeletes_defined hpd v hv
    have hbt : b = true := (deleteDecision_spec hb).mpr hc
    rw [hbt] at hb
    exact ⟨hv, hb⟩

/-- Snapshot of the kind-sensitive deletion scenario: one Deployment and a
VPA with the same name and namespace whose target kind is StatefulSet. -/
def wSnapC1 : Snapshot := ⟨[⟨"api", "ns"⟩], [], []⟩

def vpaC1 : VPA := ⟨"api", "ns", ⟨some ⟨"apps/v1", "StatefulSet", "api"⟩, none⟩⟩

def planC1 : ReconciliationPlan := ⟨[], [vpaC1]⟩

/-- Witness for C1 at the kind-mismatch scenario: the VPA is deleted. -/
theorem c1_delete_iff_witness :
    plan wSnapC1 [vpaC1] = some planC1 ∧ vpaC1 ∈ [vpaC1] ∧
      (vpaC1 ∈ planC1.toDelete ↔
        ¬ hasMatchingWorkload wSnapC1 vpaC1 ∧
          strHasPfx "goldilocks" vpaC1.name = false) :=
  ⟨by decide, by decide, @c1_delete_iff wSnapC1 [vpaC1] planC1 vpaC1 (by decide) (by decide)⟩

/-- Snapshot for C3: a Deployment whose name and namespace match a VPA
that carries no target reference. -/
def wSnapC3 : Snapshot := ⟨[⟨"api", "ns"⟩], [], []⟩

def vpaC3 : VPA := ⟨"api", "ns", ⟨none, none⟩⟩

/-- C3 (refuting the totality claim): on a VPA with an absent target
reference whose name and namespace match an existing Deployment, the
delete scan dereferences the nil reference, so planning does not produce
a plan and the cycle ends in a panic. -/
theorem c3_plan_panics :
    plan wSnapC3 [vpaC3] = none ∧
      (createVPAs (fun _ => true) wSnapC3 [vpaC3]).2 = CycleExit.panicExit := by
  decide

/-- C5: the goldilocks exemption is absolute: a VPA whose name starts with
"goldilocks" is never in any delete plan, and no delete call is ever
attempted for it, whatever the snapshots and the delete outcomes. -/
theorem c5_goldilocks_never_deleted (deleteOk : VPA → Bool) (snap : Snapshot)
    (vpas : List VPA) (v : VPA) (h : strHasPfx "goldilocks" v.name = true) :
    (∀ p, plan snap vpas = some p → v ∉ p.toDelete) ∧
      ApiAction.delete v ∉ (createVPAs deleteOk snap vpas).1 := by
  constructor
  · intro p hp hv
    obtain ⟨hpd, -⟩ := plan_some_elim hp
    obtain ⟨-, hdec⟩ := (mem_planDeletes hpd).mp hv
    have hn := ((deleteDecision_spec hdec).mp rfl).2
    rw [hn] at h
    exact Bool.noConfusion h
  · intro hmem
    have hfst : (createVPAs deleteOk snap vpas).1 =
        createActions snap vpas ++ (runDeletes deleteOk snap vpas).1 := rfl
    rw [hfst] at hmem
    rcases List.mem_append.mp hmem with hc | hd
    · exact createActions_no_delete hc
    · have hdec := runDeletes_delete_mem hd
      have hn := ((deleteDecision_spec hdec).mp rfl).2
      rw [hn] at h
      exact Bool.noConfusion h

def goldVpaC5 : VPA := ⟨"goldilocks-api", "ns", ⟨some ⟨"apps/v1", "Deployment", "api"⟩, none⟩⟩

def wSnapC5 : Snapshot := ⟨[], [], []⟩

/-- Witness for C5: an orphaned goldilocks-prefixed VPA is kept. -/
theorem c5_goldilocks_never_deleted_witness :
    strHasPfx "goldilocks" goldVpaC5.name = true ∧
      ((∀ p, plan wSnapC5 [goldVpaC5] = some p → goldVpaC5 ∉ p.toDelete) ∧
        ApiAction.delete goldVpaC5 ∉
          (createVPAs (fun _ => true) wSnapC5 [goldVpaC5]).1) :=
  ⟨by decide,
    c5_goldilocks_never_deleted (fun _ => true) wSnapC5 [goldVpaC5] goldVpaC5 (by decide)⟩

/-- C7: every VPA object the cycle submits for creation has the managed
shape: name and namespace of some snapshot workload, target reference
(apps/v1, the kind of that workload, the name of that workload), update mode Off. -/
theorem c7_created_shape {snap : Snapshot} {vpas : List VPA} {p : ReconciliationPlan}
    (hp : plan snap vpas = some p) :
    ∀ o ∈ p.toCreate, ∃ k w,
      inSnapshot snap k w ∧ o.name = w.name ∧ o.«namespace» = w.«namespace» ∧
        o.spec.targetRef = some ⟨"apps/v1", k, w.name⟩ ∧
        o.spec.updatePolicy = some ⟨some "Off"⟩ := by
  intro o ho
  rw [(plan_some_elim hp).2] at ho
  rcases mem_toCreateList.mp ho with ⟨k, w, hin, -, rfl⟩
  exact ⟨k, w, hin, rfl, rfl, rfl, rfl⟩

def wSnapC7 : Snapshot := ⟨[⟨"web", "default"⟩], [], []⟩

def planC7 : ReconciliationPlan := ⟨[mkVPA "web" "default" "apps/v1" "Deployment"], []⟩

/-- Witness for C7 on a one-Deployment snapshot. -/
theorem c7_created_shape_witness :
    plan wSnapC7 [] = some planC7 ∧
      ∀ o ∈ planC7.toCreate, ∃ k w,
        inSnapshot wSnapC7 k w ∧ o.name = w.name ∧ o.«namespace» = w.«namespace» ∧
          o.spec.targetRef = some ⟨"apps/v1", k, w.name⟩ ∧
          o.spec.updatePolicy = some ⟨some "Off"⟩ :=
  ⟨by decide, @c7_created_shape wSnapC7 [] planC7 (by decide)⟩

/-- C8: the VPA list is fetched once and not refreshed while create
actions are derived: two workloads of different kinds sharing name and
namespace, with no existing VPA of that name and namespace, both produce a
create action, identical except for the target kind. -/
theorem c8_double_create {snap : Snapshot} {vpas : List VPA} {p : ReconciliationPlan}
    {k₁ k₂ : String} {w₁ w₂ : Workload}
    (hp : plan snap vpas = some p)
    (h₁ : inSnapshot snap k₁ w₁) (h₂ : inSnapshot snap k₂ w₂)
    (hk : k₁ ≠ k₂) (hn : w₁.name = w₂.name) (hns : w₁.«namespace» = w₂.«namespace»)
    (hex : vpaExists vpas w₁ = false) :
    mkVPA w₁.name w₁.«namespace» "apps/v1" k₁ ∈ p.toCreate ∧
      mkVPA w₂.name w₂.«namespace» "apps/v1" k₂ ∈ p.toCreate ∧
      mkVPA w₁.name w₁.«namespace» "apps/v1" k₁ ≠
        mkVPA w₂.name w₂.«namespace» "apps/v1" k₂ := by
  have hw : w₁ = w₂ := workload_eq_of_fields hn hns
  have hex₂ : vpaExists vpas w₂ = false := hw ▸ hex
  rw [(plan_some_elim hp).2]
  exact ⟨mem_toCreateList.mpr ⟨k₁, w₁, h₁, hex, rfl⟩,
    mem_toCreateList.mpr ⟨k₂, w₂, h₂, hex₂, rfl⟩,
    mkVPA_kind_ne hk⟩

def wSnapC8 : Snapshot := ⟨[⟨"api", "ns"⟩], [⟨"api", "ns"⟩], []⟩

def planC8 : ReconciliationPlan :=
  ⟨[mkVPA "api" "ns" "apps/v1" "Deployment", mkVPA "api" "ns" "apps/v1" "StatefulSet"], []⟩

/-- Witness for C8: a Deployment and a StatefulSet both named api/ns. -/
theorem c8_double_create_witness :
    plan wSnapC8 [] = some planC8 ∧
      (mkVPA "api" "ns" "apps/v1" "Deployment" ∈ planC8.toCreate ∧
        mkVPA "api" "ns" "apps/v1" "StatefulSet" ∈ planC8.toCreate ∧
        mkVPA "api" "ns" "apps/v1" "Deployment" ≠
          mkVPA "api" "ns" "apps/v1" "StatefulSet") :=
  ⟨by decide,
    @c8_double_create wSnapC8 [] planC8 "Deployment" "StatefulSet" ⟨"api", "ns"⟩
      ⟨"api", "ns"⟩ (by decide) (Or.inl ⟨rfl, by decide⟩) (Or.inr (Or.inl ⟨rfl, by decide⟩))
      (by decide) rfl rfl (by decide)⟩

/-- C9: neither match ever consults the name recorded in a target
reference: rewriting the target reference name of every VPA (by any function)
leaves the plan unchanged up to the same rewriting of the deleted
records. -/
theorem c9_targetName_not_consulted (f : VPA → String) (snap : Snapshot)
    (vpas : List VPA) :
    plan snap (vpas.map (fun v => setTargetName v (f v))) =
      (plan snap vpas).map
        (fun p => ⟨p.toCreate, p.toDelete.map (fun v => setTargetName v (f v))⟩) := by
  unfold plan
  rw [planDeletes_map_setTargetName, toCreateList_map_setTargetName]
  cases hpd : planDeletes snap vpas with
  | none => rfl
  | some dels => rfl

/-- C2: a snapshot workload gets exactly one create action (carrying the
managed VPA object for its kind, name and namespace) exactly when no VPA
of the snapshot has its name and namespace; the target kind of the VPA plays no
part in this match. -/
theorem c2_create_iff {snap : Snapshot} {vpas : List VPA} {p : ReconciliationPlan}
    (hp : plan snap vpas = some p) (hnd : snap.deployments.Nodup)
    (hnst : snap.statefulSets.Nodup) (hnda : snap.daemonSets.Nodup) :
    (∀ w ∈ snap.deployments,
        p.toCreate.count (mkVPA w.name w.«namespace» "apps/v1" "Deployment") =
          if ∃ v ∈ vpas, v.name = w.name ∧ v.«namespace» = w.«namespace» then 0 else 1)
    ∧ (∀ w ∈ snap.statefulSets,
        p.toCreate.count (mkVPA w.name w.«namespace» "apps/v1" "StatefulSet") =
          if ∃ v ∈ vpas, v.name = w.name ∧ v.«namespace» = w.«namespace» then 0 else 1)
    ∧ (∀ w ∈ snap.daemonSets,
        p.toCreate.count (mkVPA w.name w.«namespace» "apps/v1" "DaemonSet") =
          if ∃ v ∈ vpas, v.name = w.name ∧ v.«namespace» = w.«namespace» then 0 else 1) := by
  have hpc := (plan_some_elim hp).2
  have hiff : ∀ w : Workload,
      (∃ v ∈ vpas, v.name = w.name ∧ v.«namespace» = w.«namespace») ↔
        vpaExists vpas w = true := by
    intro w
    rw [vpaExists_iff]
    constructor
    · rintro ⟨v, hv, h1, h2⟩; exact ⟨v, hv, h1.symm, h2.symm⟩
    · rintro ⟨v, hv, h1, h2⟩; exact ⟨v, hv, h1.symm, h2.symm⟩
  have hds : ("Deployment" : String) ≠ "StatefulSet" := by decide
  have hdd : ("Deployment" : String) ≠ "DaemonSet" := by decide
  have hsd : ("StatefulSet" : String) ≠ "Deployment" := by decide
  have hsda : ("StatefulSet" : String) ≠ "DaemonSet" := by decide
  have hdad : ("DaemonSet" : String) ≠ "Deployment" := by decide
  have hdas : ("DaemonSet" : String) ≠ "StatefulSet" := by decide
  refine ⟨fun w hw => ?_, fun w hw => ?_, fun w hw => ?_⟩
  · rw [if_congr (hiff w) rfl rfl, hpc]
    unfold toCreateList
    rw [List.count_append, List.count_append, count_createPlan_self hnd hw,
      count_createPlan_ne hds, count_createPlan_ne hdd]
    simp
  · rw [if_congr (hiff w) rfl rfl, hpc]
    unfold toCreateList
    rw [List.count_append, List.count_append, count_createPlan_self hnst hw,
      count_createPlan_ne hsd, count_createPlan_ne hsda]
    simp
  · rw [if_congr (hiff w) rfl rfl, hpc]
    unfold toCreateList
    rw [List.count_append, List.count_append, count_createPlan_self hnda hw,
      count_createPlan_ne hdad, count_createPlan_ne hdas]
    simp

/-- Snapshot of the kind-insensitive creation scenario: Deployments api and
web; a VPA named api targeting a StatefulSet suppresses the api create. -/
def wSnapC2 : Snapshot := ⟨[⟨"api", "ns"⟩, ⟨"web", "ns"⟩], [], []⟩

def vpaC2 : VPA := ⟨"api", "ns", ⟨some ⟨"apps/v1", "StatefulSet", "api"⟩, none⟩⟩

def planC2 : ReconciliationPlan := ⟨[mkVPA "web" "ns" "apps/v1" "Deployment"], [vpaC2]⟩

/-- Witness for C2 at the kind-insensitive creation scenario. -/
theorem c2_create_iff_witness :
    plan wSnapC2 [vpaC2] = some planC2 ∧ wSnapC2.deployments.Nodup ∧
      wSnapC2.statefulSets.Nodup ∧ wSnapC2.daemonSets.Nodup ∧
      ((∀ w ∈ wSnapC2.deployments,
          planC2.toCreate.count (mkVPA w.name w.«namespace» "apps/v1" "Deployment") =
            if ∃ v ∈ [vpaC2], v.name = w.name ∧ v.«namespace» = w.«namespace» then 0 else 1)
        ∧ (∀ w ∈ wSnapC2.statefulSets,
            planC2.toCreate.count (mkVPA w.name w.«namespace» "apps/v1" "StatefulSet") =
              if ∃ v ∈ [vpaC2], v.name = w.name ∧ v.«namespace» = w.«namespace» then 0 else 1)
        ∧ (∀ w ∈ wSnapC2.daemonSets,
            planC2.toCreate.count (mkVPA w.name w.«namespace» "apps/v1" "DaemonSet") =
              if ∃ v ∈ [vpaC2], v.name = w.name ∧ v.«namespace» = w.«namespace» then 0 else 1)) :=
  ⟨by decide, by decide, by decide, by decide,
    @c2_create_iff wSnapC2 [vpaC2] planC2 (by decide) (by decide) (by decide) (by decide)⟩

/-- Inputs refuting C4: two orphaned VPAs; the delete call for the first
fails, the second delete is never attempted. -/
def wSnapC4 : Snapshot := ⟨[], [], []⟩

def vpaC4a : VPA := ⟨"a", "ns", ⟨some ⟨"apps/v1", "Deployment", "a"⟩, none⟩⟩

def vpaC4b : VPA := ⟨"b", "ns", ⟨some ⟨"apps/v1", "Deployment", "b"⟩, none⟩⟩

def deleteOkC4 : VPA → Bool := fun v => !(v.name == "a")

def planC4 : ReconciliationPlan := ⟨[], [vpaC4a, vpaC4b]⟩

/-- Counterexample to C4 as stated: the delete of vpaC4a fails, and the
planned delete of vpaC4b — a remaining action of the same plan — is not
executed: the cycle stops with an error after the first failed delete. -/
theorem c4_counterexample :
    plan wSnapC4 [vpaC4a, vpaC4b] = some planC4 ∧
      deleteOkC4 vpaC4a = false ∧
      vpaC4b ∈ planC4.toDelete ∧
      createVPAs deleteOkC4 wSnapC4 [vpaC4a, vpaC4b] =
        ([ApiAction.delete vpaC4a], CycleExit.errExit) ∧
      ApiAction.delete vpaC4b ∉ (createVPAs deleteOkC4 wSnapC4 [vpaC4a, vpaC4b]).1 := by
  decide

/-- C4 as amended: create failures never block later actions (all create
calls are attempted regardless of outcome, since a failed create is only
logged); if every planned delete succeeds the cycle attempts all of them
and ends normally, but the first failed delete ends the cycle with an
error, leaving the remaining planned deletes unattempted until the next
cycle. -/
theorem c4_apply_behaviour (deleteOk : VPA → Bool) (snap : Snapshot)
    (vpas : List VPA) (p : ReconciliationPlan) (hp : plan snap vpas = some p) :
    ((∀ v ∈ p.toDelete, deleteOk v = true) →
      createVPAs deleteOk snap vpas =
        (createActions snap vpas ++ p.toDelete.map ApiAction.delete, CycleExit.ok))
    ∧ (∀ pre v post, p.toDelete = pre ++ v :: post →
        (∀ u ∈ pre, deleteOk u = true) → deleteOk v = false →
        createVPAs deleteOk snap vpas =
          (createActions snap vpas ++ (pre.map ApiAction.delete ++ [ApiAction.delete v]),
            CycleExit.errExit)) := by
  obtain ⟨hpd, -⟩ := plan_some_elim hp
  constructor
  · intro hok
    have h := runDeletes_ok hpd hok
    show (createActions snap vpas ++ (runDeletes deleteOk snap vpas).1,
        (runDeletes deleteOk snap vpas).2) =
      (createActions snap vpas ++ p.toDelete.map ApiAction.delete, CycleExit.ok)
    rw [h]
  · intro pre v post he hpre hv
    have h := runDeletes_stop hpd he hpre hv
    show (createActions snap vpas ++ (runDeletes deleteOk snap vpas).1,
        (runDeletes deleteOk snap vpas).2) =
      (createActions snap vpas ++ (pre.map ApiAction.delete ++ [ApiAction.delete v]),
        CycleExit.errExit)
    rw [h]

/-- Witness for the amended C4 at the two-orphan input. -/
theorem c4_apply_behaviour_witness :
    plan wSnapC4 [vpaC4a, vpaC4b] = some planC4 ∧
      (((∀ v ∈ planC4.toDelete, deleteOkC4 v = true) →
          createVPAs deleteOkC4 wSnapC4 [vpaC4a, vpaC4b] =
            (createActions wSnapC4 [vpaC4a, vpaC4b] ++ planC4.toDelete.map ApiAction.delete,
              CycleExit.ok))
        ∧ (∀ pre v post, planC4.toDelete = pre ++ v :: post →
            (∀ u ∈ pre, deleteOkC4 u = true) → deleteOkC4 v = false →
            createVPAs deleteOkC4 wSnapC4 [vpaC4a, vpaC4b] =
              (createActions wSnapC4 [vpaC4a, vpaC4b] ++
                (pre.map ApiAction.delete ++ [ApiAction.delete v]), CycleExit.errExit))) :=
  ⟨by decide, c4_apply_behaviour deleteOkC4 wSnapC4 [vpaC4a, vpaC4b] planC4 (by decide)⟩

/-- Inputs refuting the one-step fixed point of C6: a Deployment and a VPA
of the same name and namespace with a mismatched target kind. -/
def wSnapC6 : Snapshot := ⟨[⟨"api", "ns"⟩], [], []⟩

def vpaC6 : VPA := ⟨"api", "ns", ⟨some ⟨"apps/v1", "StatefulSet", "api"⟩, none⟩⟩

def planC6a : ReconciliationPlan := ⟨[], [vpaC6]⟩

def planC6b : ReconciliationPlan := ⟨[mkVPA "api" "ns" "apps/v1" "Deployment"], []⟩

/-- Counterexample to C6 as stated: applying the plan deletes the
kind-mismatched VPA without creating a replacement (its name still matched
on the create side), so the next plan is not empty: it must create the
VPA the first cycle deleted. -/
theorem c6_counterexample :
    plan wSnapC6 [vpaC6] = some planC6a ∧
      plan wSnapC6 (applyPlan [vpaC6] planC6a) = some planC6b ∧
      planC6b.toCreate ≠ [] := by
  decide

/-- C6 as amended: planning is a pure function of the two snapshots (so
re-running it yields the same plan), and applying a plan and
re-snapshotting yields a plan with an empty delete list whose own
application reaches the fixed point: the third plan is empty in both
directions. -/
theorem c6_two_step_convergence (snap : Snapshot) (vpas : List VPA)
    (p : ReconciliationPlan) (hp : plan snap vpas = some p) :
    ∃ p', plan snap (applyPlan vpas p) = some p' ∧ p'.toDelete = [] ∧
      ∃ p'', plan snap (applyPlan (applyPlan vpas p) p') = some p'' ∧
        p''.toCreate = [] ∧ p''.toDelete = [] := by
  have hallF : ∀ v ∈ applyPlan vpas p, deleteDecision snap v = some false :=
    applyPlan_decision_false hp
  have hpd' : planDeletes snap (applyPlan vpas p) = some [] :=
    planDeletes_allFalse hallF
  refine ⟨⟨toCreateList snap (applyPlan vpas p), []⟩, plan_some_intro hpd', rfl, ?_⟩
  have hV2 : applyPlan (applyPlan vpas p) ⟨toCreateList snap (applyPlan vpas p), []⟩ =
      applyPlan vpas p ++ toCreateList snap (applyPlan vpas p) :=
    applyPlan_emptyDelete rfl
  have hallF2 : ∀ v ∈ applyPlan vpas p ++ toCreateList snap (applyPlan vpas p),
      deleteDecision snap v = some false := by
    intro v hv
    rcases List.mem_append.mp hv with h1 | h2
    · exact hallF v h1
    · rcases mem_toCreateList.mp h2 with ⟨k, w, hin, -, rfl⟩
      exact deleteDecision_mkVPA hin
  have hpd2 : planDeletes snap
      (applyPlan (applyPlan vpas p) ⟨toCreateList snap (applyPlan vpas p), []⟩) = some [] := by
    rw [hV2]
    exact planDeletes_allFalse hallF2
  refine ⟨⟨toCreateList snap
      (applyPlan (applyPlan vpas p) ⟨toCreateList snap (applyPlan vpas p), []⟩), []⟩,
    plan_some_intro hpd2, ?_, rfl⟩
  show toCreateList snap
      (applyPlan (applyPlan vpas p) ⟨toCreateList snap (applyPlan vpas p), []⟩) = []
  rw [hV2]
  exact toCreateList_eq_nil (fun k w hin => allMatched_after_apply k w hin)

/-- Witness for the amended C6 at the kind-mismatch input: the second plan
creates the deleted VPA back with the Deployment kind, the third plan is
empty. -/
theorem c6_two_step_convergence_witness :
    plan wSnapC6 [vpaC6] = some planC6a ∧
      (∃ p', plan wSnapC6 (applyPlan [vpaC6] planC6a) = some p' ∧ p'.toDelete = [] ∧
        ∃ p'', plan wSnapC6 (applyPlan (applyPlan [vpaC6] planC6a) p') = some p'' ∧
          p''.toCreate = [] ∧ p''.toDelete = []) :=
  ⟨by decide, c6_two_step_convergence wSnapC6 [vpaC6] planC6a (by decide)⟩

/-- C10: the order of the plan is fully determined by the snapshots: the create
list is the unmatched Deployments in catalog order, then the unmatched
StatefulSets, then the unmatched DaemonSets; the delete list is the
non-exempt orphaned VPAs in VPA-catalog order; and the cycle attempts
every create call before any delete call. -/
theorem c10_order (deleteOk : VPA → Bool) (snap : Snapshot) (vpas : List VPA)
    (p : ReconciliationPlan) (hp : plan snap vpas = some p)
    (hok : ∀ v ∈ p.toDelete, deleteOk v = true) :
    p.toCreate =
        (snap.deployments.filter (fun d => !vpaExists vpas d)).map
          (fun d => mkVPA d.name d.«namespace» "apps/v1" "Deployment")
      ++ (snap.statefulSets.filter (fun s => !vpaExists vpas s)).map
          (fun s => mkVPA s.name s.«namespace» "apps/v1" "StatefulSet")
      ++ (snap.daemonSets.filter (fun d => !vpaExists vpas d)).map
          (fun d => mkVPA d.name d.«namespace» "apps/v1" "DaemonSet")
    ∧ p.toDelete = vpas.filter (fun v => decide (deleteDecision snap v = some true))
    ∧ (createVPAs deleteOk snap vpas).1 =
        p.toCreate.map ApiAction.create ++ p.toDelete.map ApiAction.delete := by
  obtain ⟨hpd, hpc⟩ := plan_some_elim hp
  refine ⟨?_, planDeletes_eq_filter hpd, ?_⟩
  · rw [hpc]
    unfold toCreateList
    rw [filterMap_createPlan_eq, filterMap_createPlan_eq, filterMap_createPlan_eq]
  · have hfst : (createVPAs deleteOk snap vpas).1 =
        createActions snap vpas ++ (runDeletes deleteOk snap vpas).1 := rfl
    rw [hfst, runDeletes_ok hpd hok, createActions_eq, hpc]

def wSnapC10 : Snapshot := ⟨[⟨"web", "default"⟩], [⟨"db", "default"⟩], []⟩

def vpaC10 : VPA := ⟨"old", "default", ⟨some ⟨"apps/v1", "Deployment", "old"⟩, none⟩⟩

def planC10 : ReconciliationPlan :=
  ⟨[mkVPA "web" "default" "apps/v1" "Deployment",
    mkVPA "db" "default" "apps/v1" "StatefulSet"], [vpaC10]⟩

/-- Witness for C10 at the end-to-end scenario of the spec: Deployment
web, StatefulSet db, orphaned VPA old. -/
theorem c10_order_witness :
    plan wSnapC10 [vpaC10] = some planC10 ∧
      (∀ v ∈ planC10.toDelete, (fun _ : VPA => true) v = true) ∧
      (planC10.toCreate =
          (wSnapC10.deployments.filter (fun d => !vpaExists [vpaC10] d)).map
            (fun d => mkVPA d.name d.«namespace» "apps/v1" "Deployment")
        ++ (wSnapC10.statefulSets.filter (fun s => !vpaExists [vpaC10] s)).map
            (fun s => mkVPA s.name s.«namespace» "apps/v1" "StatefulSet")
        ++ (wSnapC10.daemonSets.filter (fun d => !vpaExists [vpaC10] d)).map
            (fun d => mkVPA d.name d.«namespace» "apps/v1" "DaemonSet")
      ∧ planC10.toDelete =
          [vpaC10].filter (fun v => decide (deleteDecision wSnapC10 v = some true))
      ∧ (createVPAs (fun _ => true) wSnapC10 [vpaC10]).1 =
          planC10.toCreate.map ApiAction.create ++ planC10.toDelete.map ApiAction.delete) :=
  ⟨by decide, by decide,
    c10_order (fun _ => true) wSnapC10 [vpaC10] planC10 (by decide) (by decide)⟩
